import Mathlib

/-!
Verification of the combinatorial expansion, assembly, deduplication and
ranking engine of `rptools/rpcompletion/rpCompletion.py`.

Python dictionaries are embedded as association lists in insertion order
(`List (key × value)`), dictionary lookup as first-match lookup, and the
Python `dict[k] = v` / `dict[k] += v` idioms as explicit update functions.
External collaborators (`rpPathway`, `rpReaction`, `brs_utils.Item`,
`insert_and_or_replace_in_sorted_list`) are not part of the sources and are
modelled from the specification; each such definition is marked
`Modelled from the spec:` in its doc comment.
-/

namespace RpCompletion

/-- Chemical species identifier. -/
abbrev SpeciesId := String

/-- A Python stoichiometry dict: species id to stoichiometric
coefficient, in insertion order. -/
abbrev StoichioMap := List (SpeciesId × Int)

/-- First-match lookup, the semantics of Python dict access
(keys of a Python dict are unique, so first match is the match). -/
def smLookup : StoichioMap → SpeciesId → Option Int
  | [], _ => none
  | (k, v) :: t, k' => if k = k' then some v else smLookup t k'

/-- The keys of a stoichiometry map. -/
def smKeys (m : StoichioMap) : List SpeciesId := m.map Prod.fst

/-- The Python-dict invariant: keys are pairwise distinct. -/
abbrev NodupKeys (m : StoichioMap) : Prop := (smKeys m).Nodup

/-- The `added_cmpds` record returned by the rebuild service for one
template reaction: for each side, compounds with known structure and
compounds without, each with its stoichiometric coefficient
(`rxn_rebuild` output, keys `left`, `right`, `left_nostruct`,
`right_nostruct`; each value's `stoichio` field is kept directly). -/
structure AddedCmpds where
  left : StoichioMap
  right : StoichioMap
  left_nostruct : StoichioMap
  right_nostruct : StoichioMap
deriving DecidableEq

/-- The `compounds` / `core_species` dict of `rpCompletion.py`:
original transformation stoichiometry, keys `left` and `right`. -/
structure Compounds where
  left : StoichioMap
  right : StoichioMap
deriving DecidableEq

/-- A completed transformation (`full_transfos[transfo_id]`): EC numbers,
original two-sided stoichiometry, and the `complement` map from rule id to
template-reaction id to added-compounds record (association lists in
insertion order, mirroring the nested Python dicts). -/
structure Transfo where
  ec : List String
  left : StoichioMap
  right : StoichioMap
  complement : List (String × List (String × AddedCmpds))
deriving DecidableEq

/-- The candidate triplet appended by `__build_pathway_combinatorics` for
each (rule id, template-reaction id) pair of a transformation's
complement map. -/
structure Candidate where
  rp2_transfo_id : String
  rule_ids : String
  tmpl_rxn_ids : String
deriving DecidableEq

/-- The candidate list built for one position of a master pathway:
one triplet per (rule id, template-reaction id) pair, iterating rule ids
then template ids in insertion order
(`__build_pathway_combinatorics`, inner double loop). -/
def flattenComplement (tid : String) (t : Transfo) : List Candidate :=
  t.complement.flatMap
    (fun rc => rc.2.map (fun tc => ⟨tid, rc.1, tc.1⟩))

/-- `__build_pathway_combinatorics` restricted to one master pathway:
replace each transformation id by its candidate list. -/
def build_pathway_combinatorics (transfos : String → Transfo)
    (transfos_lst : List String) : List (List Candidate) :=
  transfos_lst.map (fun tid => flattenComplement tid (transfos tid))

/-- The Cartesian product across positions in `itertools.product` order
(rightmost position varies fastest), as taken by
`list(itertools_product(*transfos_lst))` in `__build_all_pathways`. -/
def cartProd {α : Type} : List (List α) → List (List α)
  | [] => [[]]
  | l :: ls => l.flatMap (fun x => (cartProd ls).map (fun sub => x :: sub))

/-- The sub-pathways generated for one master pathway
(`sub_pathways = list(itertools_product(*transfos_lst))`). -/
def subPathways (cls : List (List Candidate)) : List (List Candidate) :=
  cartProd cls

/-- The slice of a pandas dataframe of the pathways file that
`__check_pathways` inspects: its number of rows and whether the
`Path ID` column has dtype `int64`. -/
structure PathwaysDf where
  numRows : Nat
  pathIdIntDtype : Bool
deriving DecidableEq

/-- The value returned by `__check_pathways`: the Python literal `True`,
or an error-message string. -/
inductive CheckRet where
  | isTrue : CheckRet
  | isStr : String → CheckRet
deriving DecidableEq

/-- Python truthiness of a `__check_pathways` return value:
`True` is truthy; a string is truthy iff non-empty. -/
def CheckRet.truthy : CheckRet → Bool
  | .isTrue => true
  | .isStr s => decide (s ≠ "")

/-- `__check_pathways`: returns an error string when the dataframe is
empty or the `Path ID` column has a non-integer dtype, `True` otherwise. -/
def check_pathways (df : PathwaysDf) : CheckRet :=
  if df.numRows = 0 then .isStr "infile is empty"
  else if !df.pathIdIntDtype then
    .isStr "Path ID column contain non integer value(s)"
  else .isTrue

/-- `__read_pathways` aborts (reaches `exit()`) iff `not check` holds on
the value returned by `__check_pathways`, i.e. iff that value is falsy. -/
def read_pathways_aborts (df : PathwaysDf) : Bool :=
  !(check_pathways df).truthy

/-- The `if cmpd_id in _compounds[side]: _compounds[side][cmpd_id] += v
else: _compounds[side][cmpd_id] = v` idiom of `__add_compounds`:
increment the coefficient when the key is present, append otherwise. -/
def dictIncr (m : StoichioMap) (k : SpeciesId) (v : Int) : StoichioMap :=
  if (smLookup m k).isSome then
    m.map (fun e => if e.1 = k then (e.1, e.2 + v) else e)
  else m ++ [(k, v)]

/-- One inner loop of `__add_compounds`: fold all entries of one
added sub-map into an existing side map with `dictIncr`. -/
def addSide (m : StoichioMap) (toAdd : StoichioMap) : StoichioMap :=
  toAdd.foldl (fun acc e => dictIncr acc e.1 e.2) m

/-- `__add_compounds`: merge a transformation's original stoichiometry
with an added-compounds record; for each side, first the structured
sub-map then the no-struct sub-map is folded in. -/
def add_compounds (c : Compounds) (a : AddedCmpds) : Compounds :=
  ⟨addSide (addSide c.left a.left) a.left_nostruct,
   addSide (addSide c.right a.right) a.right_nostruct⟩

/-- Sum of two optional coefficients: present on either side wins,
present on both sides adds. -/
def optSum : Option Int → Option Int → Option Int
  | none, b => b
  | some x, none => some x
  | some x, some y => some (x + y)

/-- A reference into the Python heap, for the mutation model of
`__add_compounds`. -/
abbrev Ref := Nat

/-- The Python heap restricted to stoichiometry dicts: a map from
references to dict contents, in allocation order. -/
abbrev Store := List (Ref × StoichioMap)

/-- The references allocated in a store. -/
def storeDom (σ : Store) : List Ref := σ.map Prod.fst

/-- Dereference: contents of a dict in the store (empty for a dangling
reference, which never arises below). -/
def storeGet : Store → Ref → StoichioMap
  | [], _ => []
  | (r, m) :: t, s => if r = s then m else storeGet t s

/-- In-place overwrite of the dict behind a reference. -/
def storeSet (σ : Store) (r : Ref) (m : StoichioMap) : Store :=
  σ.map (fun e => if e.1 = r then (e.1, m) else e)

/-- A reference not yet allocated in the store. -/
def freshRef (σ : Store) : Ref :=
  σ.foldr (fun e acc => max (e.1 + 1) acc) 0

/-- One inner loop of `__add_compounds` acting on the heap: each
added entry mutates the dict behind `r` in place via `dictIncr`. -/
def stIncrLoop (σ : Store) (r : Ref) (toAdd : StoichioMap) : Store :=
  toAdd.foldl (fun s e => storeSet s r (dictIncr (storeGet s r) e.1 e.2)) σ

/-- `__add_compounds` as heap mutation: `deepcopy` allocates fresh dicts
for both sides of the result, then the four loops (right struct, right
no-struct, left struct, left no-struct, in source order) mutate only the
fresh dicts; the six input dicts are only read. Returns the final heap
and the references of the result's left and right sides. -/
def add_compounds_st (σ0 : Store) (cL cR aL aR aLn aRn : Ref) :
    Store × Ref × Ref :=
  let rL := freshRef σ0
  let σ1 := σ0 ++ [(rL, storeGet σ0 cL)]
  let rR := freshRef σ1
  let σ2 := σ1 ++ [(rR, storeGet σ1 cR)]
  let σ3 := stIncrLoop σ2 rR (storeGet σ2 aR)
  let σ4 := stIncrLoop σ3 rR (storeGet σ3 aRn)
  let σ5 := stIncrLoop σ4 rL (storeGet σ4 aL)
  let σ6 := stIncrLoop σ5 rL (storeGet σ5 aLn)
  (σ6, rL, rR)

/-- First-match lookup in a string-keyed association list (Python dict
access for the nested `complement` dicts and the compound registry). -/
def alookup {β : Type} : List (String × β) → String → Option β
  | [], _ => none
  | (k, v) :: t, k' => if k = k' then some v else alookup t k'

/-- Modelled from the spec: `rpReaction` (from `rptools.rplibs`, not part
of the sources) — id, EC numbers, reactant and product maps, flux bounds,
rule-id set, template-reaction-id set, rule score and forward position
index. Flux bounds and scores are modelled as rationals (the engine only
stores and compares them). -/
structure Reaction where
  id : String
  ec_numbers : List String
  reactants : StoichioMap
  products : StoichioMap
  lower_flux_bound : ℚ
  upper_flux_bound : ℚ
  rule_ids : List String
  tmpl_rxn_ids : List String
  rule_score : ℚ
  idx_in_path : Nat
deriving DecidableEq

/-- Modelled from the spec: `rpPathway` (from `rptools.rplibs`, not part
of the sources) — id, ordered reaction list, species groups and sink
species. -/
structure Pathway where
  id : String
  reactions : List Reaction
  trunk_species : List SpeciesId
  completed_species : List SpeciesId
  sink_species : List SpeciesId
deriving DecidableEq

/-- Modelled from the spec: `rpPathway.get_species_ids` — every species
id appearing in any reaction of the pathway (reactants and products). -/
def Pathway.species_ids (p : Pathway) : List SpeciesId :=
  (p.reactions.map (fun r => smKeys r.reactants ++ smKeys r.products)).flatten

/-- The sink computation of `__build_all_pathways`:
`set(pathway.get_species_ids()) & set(sink_molecules)` — the set
intersection of the pathway's species ids with the external sink set,
each id at most once. -/
def set_sink_species (p : Pathway) (sink_molecules : List SpeciesId) : Pathway :=
  { p with sink_species :=
      (p.species_ids.dedup).filter (fun s => decide (s ∈ sink_molecules)) }

/-- Lookup of `transfo['complement'][rule_ids][tmpl_rxn_id]['added_cmpds']`
in `__build_all_pathways` (total: candidates are always built from
entries present in the complement map). -/
def complement_lookup (t : Transfo) (rule_id tmpl_rxn_id : String) :
    AddedCmpds :=
  match alookup t.complement rule_id with
  | some tmpls => (alookup tmpls tmpl_rxn_id).getD ⟨[], [], [], []⟩
  | none => ⟨[], [], [], []⟩

/-- One iteration of the reaction loop of `__build_all_pathways`
(lines 693-744): assemble the `rpReaction` for the candidate at
zero-based retrosynthetic position `rxn_idx` of a sub-pathway with
`nb_reactions` reactions; the forward index is
`nb_reactions - rxn_idx`, used both as the id suffix and as
`idx_in_path`; the triplet seeds the singleton rule-id and
template-id sets. -/
def buildReaction (transfos : String → Transfo)
    (rr_score : String → String → ℚ)
    (lower_flux_bound upper_flux_bound : ℚ)
    (nb_reactions rxn_idx : Nat) (cand : Candidate) : Reaction :=
  let transfo := transfos cand.rp2_transfo_id
  let added_cmpds := complement_lookup transfo cand.rule_ids cand.tmpl_rxn_ids
  let compounds := add_compounds ⟨transfo.left, transfo.right⟩ added_cmpds
  let rxn_idx_forward := nb_reactions - rxn_idx
  { id := "rxn_" ++ toString rxn_idx_forward
    ec_numbers := transfo.ec
    reactants := compounds.left
    products := compounds.right
    lower_flux_bound := lower_flux_bound
    upper_flux_bound := upper_flux_bound
    rule_ids := [cand.rule_ids]
    tmpl_rxn_ids := [cand.tmpl_rxn_ids]
    rule_score := rr_score cand.rule_ids cand.tmpl_rxn_ids
    idx_in_path := rxn_idx_forward }

/-- The reaction loop of `__build_all_pathways` over one sub-pathway, in
retrosynthetic input order, carrying the running zero-based index. -/
def buildReactionsFrom (transfos : String → Transfo)
    (rr_score : String → String → ℚ) (lfb ufb : ℚ)
    (nb_reactions : Nat) : Nat → List Candidate → List Reaction
  | _, [] => []
  | i, c :: rest =>
    buildReaction transfos rr_score lfb ufb nb_reactions i c
      :: buildReactionsFrom transfos rr_score lfb ufb nb_reactions (i + 1) rest

/-- All reactions of one sub-pathway, built in retrosynthetic order with
`nb_reactions = len(sub_pathways[sub_path_idx])`. -/
def build_sub_pathway_reactions (transfos : String → Transfo)
    (rr_score : String → String → ℚ) (lfb ufb : ℚ)
    (sub : List Candidate) : List Reaction :=
  buildReactionsFrom transfos rr_score lfb ufb sub.length 0 sub

/-- A compound registered in the process-wide compound registry
(`brs_utils.Cache` of `rpCompound` objects): fully described, or a bare
placeholder keyed by id only. -/
inductive CompoundRec where
  | full (smiles inchi inchikey formula name : String) : CompoundRec
  | placeholder : CompoundRec
deriving DecidableEq

/-- One entry of the compounds cache (`cid_strc`). -/
structure CompoundData where
  smiles : String
  inchi : String
  inchikey : String
  formula : String
  name : String
deriving DecidableEq

/-- The shared compound registry, keyed by species id. -/
abbrev Registry := List (SpeciesId × CompoundRec)

/-- The missing-compound registration of `__build_all_pathways`
(lines 708-721): if the species id is already registered, do nothing;
otherwise create a fully-described compound from the compounds cache,
falling back (`except KeyError`) to a bare placeholder keyed by id only
when the cache has no entry. -/
def register_compound (registry : Registry)
    (compounds_cache : SpeciesId → Option CompoundData)
    (spe_id : SpeciesId) : Registry :=
  if (alookup registry spe_id).isSome then registry
  else
    match compounds_cache spe_id with
    | some d => registry
        ++ [(spe_id, CompoundRec.full d.smiles d.inchi d.inchikey d.formula d.name)]
    | none => registry ++ [(spe_id, CompoundRec.placeholder)]

/-- Modelled from the spec: `brs_utils.Item` (not part of the sources) —
a ranked entry pairing a pathway object with its score. -/
structure Item where
  object : Pathway
  score : ℚ
deriving DecidableEq

/-- Modelled from the spec: `rpPathway.get_mean_rule_score` (not part of
the sources) — arithmetic mean of the pathway's reactions' rule scores. -/
def get_mean_rule_score (p : Pathway) : ℚ :=
  (p.reactions.map Reaction.rule_score).sum / p.reactions.length

/-- Modelled from the spec:
`brs_utils.insert_and_or_replace_in_sorted_list` (not part of the
sources) — insert an item into a list sorted by ascending score, keeping
it sorted; stable: among equal scores the new item goes after the
existing ones. -/
def insert_in_sorted_list (it : Item) : List Item → List Item
  | [] => [it]
  | x :: xs =>
    if it.score < x.score then it :: x :: xs
    else x :: insert_in_sorted_list it xs

/-- Modelled from the spec: `rpReaction` equality (not part of the
sources) — structural equality on reactant map, product map, flux bounds
and EC numbers; rule-id and template-id sets are excluded (they are
exactly the provenance being unioned). -/
def Reaction.structEq (r s : Reaction) : Bool :=
  decide (r.reactants = s.reactants) && decide (r.products = s.products)
  && decide (r.lower_flux_bound = s.lower_flux_bound)
  && decide (r.upper_flux_bound = s.upper_flux_bound)
  && decide (r.ec_numbers = s.ec_numbers)

/-- The provenance-free projection of a reaction: exactly the fields
`Reaction.structEq` compares. -/
def Reaction.structKey (r : Reaction) :
    StoichioMap × StoichioMap × ℚ × ℚ × List String :=
  (r.reactants, r.products, r.lower_flux_bound, r.upper_flux_bound,
    r.ec_numbers)

/-- Modelled from the spec: `rpPathway` equality (not part of the
sources) — same ordered reaction count and each corresponding reaction
pair structurally equal. -/
def rxnChainEq : List Reaction → List Reaction → Bool
  | [], [] => true
  | r :: rs, s :: ss => Reaction.structEq r s && rxnChainEq rs ss
  | _, _ => false

/-- Structural pathway equality, applied as `pathway == _pathway.object`
in `__keep_unique_pathways`. -/
def pathwayEq (p q : Pathway) : Bool := rxnChainEq p.reactions q.reactions

/-- The id-copy loops of `__keep_unique_pathways`: append each id of
`add` not yet present, preserving order. -/
def unionIds (base add : List String) : List String :=
  add.foldl (fun acc i => if i ∈ acc then acc else acc ++ [i]) base

/-- One provenance-union step of `__keep_unique_pathways`: if the new
pathway's reaction `src` is structurally equal to the existing reaction
`tgt`, copy `src`'s template-reaction ids then rule ids into `tgt`,
skipping ids already present. -/
def Reaction.absorb (tgt src : Reaction) : Reaction :=
  if Reaction.structEq src tgt then
    { tgt with
        tmpl_rxn_ids := unionIds tgt.tmpl_rxn_ids src.tmpl_rxn_ids
        rule_ids := unionIds tgt.rule_ids src.rule_ids }
  else tgt

/-- The double reaction loop of `__keep_unique_pathways`: for each
reaction of the new pathway (outer loop, in order), union its provenance
into every structurally equal reaction of the existing pathway
(inner loop). -/
def mergeProvenance (existing incoming : List Reaction) : List Reaction :=
  incoming.foldl
    (fun acc src => acc.map (fun tgt => Reaction.absorb tgt src)) existing

/-- The cumulative effect of the inner loop on one existing reaction:
absorb every reaction of the new pathway in order. -/
def absorbAll (tgt : Reaction) (srcs : List Reaction) : Reaction :=
  srcs.foldl Reaction.absorb tgt

/-- Provenance union applied to one ranked entry when the new pathway is
structurally equal to it (the body of the `pathway == _pathway.object`
branch). -/
def updateItem (pathway : Pathway) (it : Item) : Item :=
  if pathwayEq pathway it.object then
    { it with object := { it.object with
        reactions := mergeProvenance it.object.reactions pathway.reactions } }
  else it

/-- `__keep_unique_pathways`: if a structurally equal pathway is already
in the list, union provenance into every equal entry and do not insert;
otherwise score the new pathway by its mean rule score and insert it
into the ascending-score-sorted list. -/
def keep_unique_pathways (pathways : List Item) (pathway : Pathway) :
    List Item :=
  if pathways.any (fun it => pathwayEq pathway it.object) then
    pathways.map (updateItem pathway)
  else
    insert_in_sorted_list ⟨pathway, get_mean_rule_score pathway⟩ pathways

/-- The flattening
`sum([pathways for pathways in res_pathways.values()], [])` of
`__build_all_pathways`. -/
def flatten_pathways (res : List (List Item)) : List Item :=
  res.foldl (fun acc l => acc ++ l) []

/-- `sorted(pathways)` of `__build_all_pathways`: stable ascending sort
of the flattened entries (brs_utils `Item` orders by score). -/
def global_sorted (res : List (List Item)) : List Item :=
  (flatten_pathways res).mergeSort (fun a b => decide (a.score ≤ b.score))

/-- `sorted(pathways)[-max_subpaths_filter:]` of `__build_all_pathways`:
global ascending sort by score followed by the suffix slice of length
`max_subpaths_filter`. -/
def global_topk (res : List (List Item)) (max_subpaths_filter : Nat) :
    List Item :=
  (global_sorted res).drop ((global_sorted res).length - max_subpaths_filter)

/-- Ascending score order on ranked entries. -/
abbrev SortedByScore (l : List Item) : Prop :=
  List.Pairwise (fun a b => a.score ≤ b.score) l

/-- No two entries of a ranked list are structurally equal pathways: the
invariant `__keep_unique_pathways` maintains per master pathway. -/
abbrev PairwiseDistinct (l : List Item) : Prop :=
  List.Pairwise (fun a b => pathwayEq a.object b.object = false) l

/-- Example data: a reaction realized by rule `RR-a` / template
`MNXR1`. -/
def exReaction1 : Reaction :=
  ⟨"rxn_1", [], [("A", 1)], [("B", 1)], 0, 0, ["RR-a"], ["MNXR1"], 0, 1⟩

/-- Example data: the structurally identical reaction realized by rule
`RR-b` / template `MNXR2`. -/
def exReaction2 : Reaction :=
  ⟨"rxn_1", [], [("A", 1)], [("B", 1)], 0, 0, ["RR-b"], ["MNXR2"], 0, 1⟩

/-- Example data: a ranked entry holding the one-reaction pathway built
on `exReaction1`. -/
def exItem : Item := ⟨⟨"q", [exReaction1], [], [], []⟩, 0⟩

/-- Example data: the structurally equal one-reaction pathway built on
`exReaction2`. -/
def exPathway : Pathway := ⟨"p", [exReaction2], [], [], []⟩

end RpCompletion

namespace RpCompletion

theorem length_cartProd {α : Type} (ls : List (List α)) :
    (cartProd ls).length = (ls.map List.length).prod := by
  induction ls with
  | nil => rfl
  | cons l ls ih =>
    simp only [cartProd, List.length_flatMap, List.map_map, Function.comp_def,
      List.length_map, ih, List.map_cons, List.prod_cons]
    rw [List.map_const', List.sum_replicate, smul_eq_mul]

/-- C1: for a master pathway whose per-position candidate lists have
lengths c1..cn, the number of generated sub-pathways equals the product
c1*...*cn; each position's candidate count is the number of
(rule id, template-reaction id) pairs of its complement map; and if any
position has zero candidates, zero sub-pathways are generated. -/
theorem subPathways_count (transfos : String → Transfo)
    (transfos_lst : List String) :
    (subPathways (build_pathway_combinatorics transfos transfos_lst)).length
      = ((build_pathway_combinatorics transfos transfos_lst).map
          List.length).prod
    ∧ (∀ tid ∈ transfos_lst,
        (flattenComplement tid (transfos tid)).length
          = (((transfos tid).complement.map
              (fun rc => rc.2.length)).sum))
    ∧ ([] ∈ build_pathway_combinatorics transfos transfos_lst →
        (subPathways
          (build_pathway_combinatorics transfos transfos_lst)).length = 0) := by
  refine ⟨length_cartProd _, ?_, ?_⟩
  · intro tid _
    simp [flattenComplement, List.length_flatMap, Function.comp_def]
  · intro hmem
    rw [subPathways, length_cartProd]
    refine List.prod_eq_zero ?_
    simp only [List.mem_map]
    exact ⟨[], hmem, rfl⟩

/-- Witness for `subPathways_count` at a concrete pathway: two positions
with 2 and 3 candidates give 6 sub-pathways; a position with an empty
candidate list gives 0. -/
theorem subPathways_count_concrete :
    (subPathways (build_pathway_combinatorics
      (fun tid =>
        if tid = "TRS_0" then
          ⟨[], [("A", 1)], [("B", 1)],
            [("RR-a", [("MNXR1", ⟨[], [], [], []⟩)]),
             ("RR-b", [("MNXR2", ⟨[], [], [], []⟩)])]⟩
        else if tid = "TRS_1" then
          ⟨[], [("B", 1)], [("C", 1)],
            [("RR-c", [("MNXR3", ⟨[], [], [], []⟩),
                       ("MNXR4", ⟨[], [], [], []⟩),
                       ("MNXR5", ⟨[], [], [], []⟩)])]⟩
        else ⟨[], [], [], []⟩)
      ["TRS_0", "TRS_1"])).length = 2 * 3
    ∧ (subPathways (build_pathway_combinatorics
        (fun _ => ⟨[], [], [], []⟩) ["TRS_0", "TRS_1"])).length = 0 := by
  constructor
  · rfl
  · rfl

/-- C2: `__read_pathways` never aborts. `__check_pathways` does flag an
empty input and a non-integer `Path ID` column, but it flags them by
returning a non-empty string, which is truthy in Python, so the
`if not check: exit()` guard never fires — contradicting both the claim
and the function's own docstring (`True if data are ok, False otherwise`). -/
theorem read_pathways_never_aborts :
    check_pathways ⟨0, true⟩ = CheckRet.isStr "infile is empty"
    ∧ read_pathways_aborts ⟨0, true⟩ = false
    ∧ check_pathways ⟨3, false⟩
        = CheckRet.isStr "Path ID column contain non integer value(s)"
    ∧ read_pathways_aborts ⟨3, false⟩ = false
    ∧ ∀ df : PathwaysDf, read_pathways_aborts df = false := by
  refine ⟨rfl, rfl, rfl, rfl, ?_⟩
  intro df
  cases df with
  | mk n b =>
    cases n with
    | zero => rfl
    | succ m => cases b <;> rfl

theorem optSum_none_right (o : Option Int) : optSum o none = o := by
  cases o <;> rfl

theorem smLookup_nil (k : SpeciesId) : smLookup [] k = none := rfl

theorem smLookup_cons (a : SpeciesId) (b : Int) (t : StoichioMap)
    (k : SpeciesId) :
    smLookup ((a, b) :: t) k = if a = k then some b else smLookup t k := rfl

theorem smLookup_eq_none_iff (m : StoichioMap) (k : SpeciesId) :
    smLookup m k = none ↔ k ∉ smKeys m := by
  induction m with
  | nil => simp [smLookup, smKeys]
  | cons e t ih =>
    obtain ⟨a, b⟩ := e
    by_cases h : a = k
    · subst h
      simp [smLookup, smKeys]
    · simp [smLookup, smKeys, h, Ne.symm h] at ih ⊢
      exact ih

theorem smLookup_append_single (m : StoichioMap) (k' : SpeciesId) (v : Int)
    (k : SpeciesId) :
    smLookup (m ++ [(k', v)]) k
      = match smLookup m k with
        | some x => some x
        | none => if k' = k then some v else none := by
  induction m with
  | nil => simp [smLookup]
  | cons e t ih =>
    obtain ⟨a, b⟩ := e
    by_cases h : a = k
    · simp [smLookup, h]
    · simp [smLookup, h, ih]

theorem smLookup_mapIncr (m : StoichioMap) (k' : SpeciesId) (v : Int)
    (k : SpeciesId) :
    smLookup (m.map (fun e => if e.1 = k' then (e.1, e.2 + v) else e)) k
      = if k = k' then (smLookup m k).map (· + v) else smLookup m k := by
  induction m with
  | nil =>
    cases Decidable.em (k = k') with
    | inl h => rw [if_pos h]; rfl
    | inr h => rw [if_neg h]; rfl
  | cons e t ih =>
    obtain ⟨a, b⟩ := e
    rw [List.map_cons]
    by_cases hak' : a = k'
    · have hhead :
          (if (a, b).1 = k' then ((a, b).1, (a, b).2 + v) else (a, b))
            = (a, b + v) := by
        simp [hak']
      rw [hhead]
      by_cases hak : a = k
      · have hkk' : k = k' := hak ▸ hak'
        rw [smLookup_cons, if_pos hak, smLookup_cons, if_pos hak,
          if_pos hkk']
        rfl
      · have hkk' : ¬k = k' := by
          intro h
          exact hak (hak'.symm ▸ h.symm ▸ rfl)
        rw [smLookup_cons, if_neg hak, smLookup_cons, if_neg hak, ih,
          if_neg hkk']
    · have hhead :
          (if (a, b).1 = k' then ((a, b).1, (a, b).2 + v) else (a, b))
            = (a, b) := by
        simp [hak']
      rw [hhead]
      by_cases hak : a = k
      · have hkk' : ¬k = k' := by
          intro h
          exact hak' (hak ▸ h)
        rw [smLookup_cons, if_pos hak, smLookup_cons, if_pos hak,
          if_neg hkk']
      · rw [smLookup_cons, if_neg hak, smLookup_cons, if_neg hak, ih]

theorem smLookup_dictIncr (m : StoichioMap) (k' : SpeciesId) (v : Int)
    (k : SpeciesId) :
    smLookup (dictIncr m k' v) k
      = if k = k' then optSum (smLookup m k) (some v) else smLookup m k := by
  unfold dictIncr
  by_cases hpres : (smLookup m k').isSome
  · rw [if_pos hpres, smLookup_mapIncr]
    by_cases hk : k = k'
    · subst hk
      obtain ⟨x, hx⟩ := Option.isSome_iff_exists.mp hpres
      simp [hx, optSum]
    · simp [hk]
  · rw [if_neg hpres, smLookup_append_single]
    by_cases hk : k = k'
    · subst hk
      have hnone : smLookup m k = none := by
        cases h : smLookup m k with
        | none => rfl
        | some x => rw [h] at hpres; simp at hpres
      simp [hnone, optSum]
    · cases h : smLookup m k with
      | none =>
        have hk' : ¬k' = k := fun hh => hk hh.symm
        simp [hk, hk']
      | some x => simp [hk]

theorem smLookup_addSide (m toAdd : StoichioMap) (h : NodupKeys toAdd)
    (k : SpeciesId) :
    smLookup (addSide m toAdd) k
      = optSum (smLookup m k) (smLookup toAdd k) := by
  induction toAdd generalizing m with
  | nil => simp [addSide, smLookup, optSum_none_right]
  | cons e t ih =>
    obtain ⟨a, b⟩ := e
    have hstep : addSide m ((a, b) :: t) = addSide (dictIncr m a b) t := rfl
    have hnd : NodupKeys t := by
      have := h
      simp [NodupKeys, smKeys] at this ⊢
      exact this.2
    have hna : a ∉ smKeys t := by
      have := h
      simp [NodupKeys, smKeys] at this ⊢
      intro v hv
      exact this.1 v hv
    rw [hstep, ih _ hnd, smLookup_dictIncr]
    by_cases hk : k = a
    · subst hk
      have ht : smLookup t k = none := (smLookup_eq_none_iff t k).mpr hna
      simp [smLookup, ht, optSum_none_right]
    · simp [smLookup, Ne.symm hk, hk]

/-- C5: merging original stoichiometry with an added-compounds record
sums coefficients rather than overwriting: for each side, the resulting
coefficient of a species id is the sum of its original coefficient (if
present), its structured added coefficient (if present) and its
no-struct added coefficient (if present); in particular an id present in
both the struct and no-struct maps of a side has its two coefficients
summed. -/
theorem add_compounds_sums (c : Compounds) (a : AddedCmpds)
    (hl : NodupKeys a.left) (hln : NodupKeys a.left_nostruct)
    (hr : NodupKeys a.right) (hrn : NodupKeys a.right_nostruct) :
    (∀ k, smLookup (add_compounds c a).left k
        = optSum (optSum (smLookup c.left k) (smLookup a.left k))
            (smLookup a.left_nostruct k))
    ∧ (∀ k, smLookup (add_compounds c a).right k
        = optSum (optSum (smLookup c.right k) (smLookup a.right k))
            (smLookup a.right_nostruct k))
    ∧ (∀ k x y, smLookup c.left k = none → smLookup a.left k = some x →
        smLookup a.left_nostruct k = some y →
        smLookup (add_compounds c a).left k = some (x + y)) := by
  have hleft : ∀ k, smLookup (add_compounds c a).left k
      = optSum (optSum (smLookup c.left k) (smLookup a.left k))
          (smLookup a.left_nostruct k) := by
    intro k
    show smLookup (addSide (addSide c.left a.left) a.left_nostruct) k = _
    rw [smLookup_addSide _ _ hln, smLookup_addSide _ _ hl]
  refine ⟨hleft, ?_, ?_⟩
  · intro k
    show smLookup (addSide (addSide c.right a.right) a.right_nostruct) k = _
    rw [smLookup_addSide _ _ hrn, smLookup_addSide _ _ hr]
  · intro k x y hc hx hy
    rw [hleft k, hc, hx, hy]
    rfl

/-- Witness for `add_compounds_sums`: the id `M` appears in the original
left map (coefficient 1), the left struct map (coefficient 2) and the
left no-struct map (coefficient 4); the merged coefficient is 7, and
with no original occurrence the struct and no-struct coefficients sum. -/
theorem add_compounds_sums_concrete :
    NodupKeys ([("M", 2)] : StoichioMap)
    ∧ NodupKeys ([("M", 4), ("N", 8)] : StoichioMap)
    ∧ NodupKeys ([("P", 3)] : StoichioMap)
    ∧ NodupKeys ([] : StoichioMap)
    ∧ (∀ k, smLookup (add_compounds ⟨[("M", 1)], [("T", 1)]⟩
          ⟨[("M", 2)], [("P", 3)], [("M", 4), ("N", 8)], []⟩).left k
        = optSum (optSum (smLookup [("M", 1)] k) (smLookup [("M", 2)] k))
            (smLookup [("M", 4), ("N", 8)] k))
    ∧ smLookup (add_compounds ⟨[("M", 1)], [("T", 1)]⟩
          ⟨[("M", 2)], [("P", 3)], [("M", 4), ("N", 8)], []⟩).left "M"
        = some 7
    ∧ smLookup (add_compounds ⟨[("M", 1)], [("T", 1)]⟩
          ⟨[("M", 2)], [("P", 3)], [("M", 4), ("N", 8)], []⟩).left "N"
        = some 8 := by
  have h := add_compounds_sums ⟨[("M", 1)], [("T", 1)]⟩
    ⟨[("M", 2)], [("P", 3)], [("M", 4), ("N", 8)], []⟩
    (by decide) (by decide) (by decide) (by decide)
  refine ⟨by decide, by decide, by decide, by decide, h.1, by decide, by decide⟩

theorem freshRef_cons (e : Ref × StoichioMap) (t : Store) :
    freshRef (e :: t) = max (e.1 + 1) (freshRef t) := rfl

theorem lt_freshRef (σ : Store) : ∀ r ∈ storeDom σ, r < freshRef σ := by
  induction σ with
  | nil => intro r h; exact absurd h (by simp [storeDom])
  | cons e t ih =>
    intro r h
    rw [freshRef_cons]
    rcases (by simpa [storeDom] using h : r = e.1 ∨ r ∈ storeDom t) with h' | h'
    · exact lt_of_lt_of_le (h' ▸ Nat.lt_succ_self _) (le_max_left _ _)
    · exact lt_of_lt_of_le (ih r h') (le_max_right _ _)

theorem storeGet_cons (a : Ref) (m : StoichioMap) (t : Store) (r : Ref) :
    storeGet ((a, m) :: t) r = if a = r then m else storeGet t r := rfl

theorem storeDom_append (σ τ : Store) :
    storeDom (σ ++ τ) = storeDom σ ++ storeDom τ := by
  simp [storeDom]

theorem storeGet_append (σ τ : Store) (r : Ref) :
    storeGet (σ ++ τ) r
      = if r ∈ storeDom σ then storeGet σ r else storeGet τ r := by
  induction σ with
  | nil => simp [storeDom, storeGet]
  | cons e t ih =>
    obtain ⟨a, m⟩ := e
    rw [List.cons_append, storeGet_cons, storeGet_cons]
    have hdom : storeDom ((a, m) :: t) = a :: storeDom t := rfl
    by_cases h : a = r
    · rw [if_pos h, if_pos h, if_pos (by rw [hdom]; exact h ▸ List.mem_cons_self a _)]
    · rw [if_neg h, if_neg h, ih]
      by_cases hr : r ∈ storeDom t
      · rw [if_pos hr, if_pos (by rw [hdom]; exact List.mem_cons_of_mem _ hr)]
      · rw [if_neg hr, if_neg (by
          rw [hdom]
          intro hmem
          rcases List.mem_cons.mp hmem with h' | h'
          · exact h h'.symm
          · exact hr h')]

theorem storeSet_cons (a : Ref) (b : StoichioMap) (t : Store) (s : Ref)
    (m : StoichioMap) :
    storeSet ((a, b) :: t) s m
      = (if a = s then (a, m) else (a, b)) :: storeSet t s m := by
  unfold storeSet
  rw [List.map_cons]

theorem storeDom_storeSet (σ : Store) (s : Ref) (m : StoichioMap) :
    storeDom (storeSet σ s m) = storeDom σ := by
  unfold storeDom storeSet
  rw [List.map_map]
  congr 1
  funext e
  by_cases h : e.1 = s <;> simp [h]

theorem storeGet_storeSet_ne (σ : Store) (s r : Ref) (m : StoichioMap)
    (h : ¬s = r) : storeGet (storeSet σ s m) r = storeGet σ r := by
  induction σ with
  | nil => rfl
  | cons e t ih =>
    obtain ⟨a, b⟩ := e
    rw [storeSet_cons]
    by_cases ha : a = s
    · rw [if_pos ha, storeGet_cons, storeGet_cons]
      have hna : ¬a = r := fun hh => h (ha ▸ hh)
      rw [if_neg hna, if_neg hna, ih]
    · rw [if_neg ha, storeGet_cons, storeGet_cons]
      by_cases har : a = r
      · rw [if_pos har, if_pos har]
      · rw [if_neg har, if_neg har, ih]

theorem storeGet_storeSet_self (σ : Store) (r : Ref) (m : StoichioMap)
    (h : r ∈ storeDom σ) : storeGet (storeSet σ r m) r = m := by
  induction σ with
  | nil => exact absurd h (by simp [storeDom])
  | cons e t ih =>
    obtain ⟨a, b⟩ := e
    rw [storeSet_cons]
    by_cases ha : a = r
    · rw [if_pos ha, storeGet_cons, if_pos ha]
    · rw [if_neg ha, storeGet_cons, if_neg ha]
      refine ih ?_
      rcases (by simpa [storeDom] using h : r = a ∨ r ∈ storeDom t) with h' | h'
      · exact absurd h'.symm ha
      · exact h'

theorem stIncrLoop_cons (σ : Store) (r : Ref) (e : SpeciesId × Int)
    (t : StoichioMap) :
    stIncrLoop σ r (e :: t)
      = stIncrLoop (storeSet σ r (dictIncr (storeGet σ r) e.1 e.2)) r t := rfl

theorem storeDom_stIncrLoop (σ : Store) (r : Ref) (l : StoichioMap) :
    storeDom (stIncrLoop σ r l) = storeDom σ := by
  induction l generalizing σ with
  | nil => rfl
  | cons e t ih => rw [stIncrLoop_cons, ih, storeDom_storeSet]

theorem storeGet_stIncrLoop_ne (σ : Store) (s r : Ref) (l : StoichioMap)
    (h : ¬s = r) : storeGet (stIncrLoop σ s l) r = storeGet σ r := by
  induction l generalizing σ with
  | nil => rfl
  | cons e t ih => rw [stIncrLoop_cons, ih, storeGet_storeSet_ne _ _ _ _ h]

theorem storeGet_stIncrLoop_self (σ : Store) (r : Ref) (l : StoichioMap)
    (h : r ∈ storeDom σ) :
    storeGet (stIncrLoop σ r l) r = addSide (storeGet σ r) l := by
  induction l generalizing σ with
  | nil => rfl
  | cons e t ih =>
    rw [stIncrLoop_cons]
    have hdom : r ∈ storeDom (storeSet σ r (dictIncr (storeGet σ r) e.1 e.2)) := by
      rw [storeDom_storeSet]; exact h
    rw [ih _ hdom, storeGet_storeSet_self _ _ _ h]
    rfl

/-- C10: `__add_compounds` is pure with respect to its inputs. In the
heap model, the call allocates the result's two dicts at fresh
references, every dict already allocated before the call (in particular
the existing left/right stoichiometry and the four added-compounds
sub-maps) is left with unchanged contents, and the returned references
hold exactly the result of the pure merge `add_compounds`. -/
theorem add_compounds_st_frame (σ : Store) (cL cR aL aR aLn aRn : Ref)
    (hcL : cL ∈ storeDom σ) (hcR : cR ∈ storeDom σ) (haL : aL ∈ storeDom σ)
    (haR : aR ∈ storeDom σ) (haLn : aLn ∈ storeDom σ)
    (haRn : aRn ∈ storeDom σ) :
    (∀ r ∈ storeDom σ,
      storeGet (add_compounds_st σ cL cR aL aR aLn aRn).1 r = storeGet σ r)
    ∧ storeGet (add_compounds_st σ cL cR aL aR aLn aRn).1
        (add_compounds_st σ cL cR aL aR aLn aRn).2.1
      = (add_compounds ⟨storeGet σ cL, storeGet σ cR⟩
          ⟨storeGet σ aL, storeGet σ aR,
            storeGet σ aLn, storeGet σ aRn⟩).left
    ∧ storeGet (add_compounds_st σ cL cR aL aR aLn aRn).1
        (add_compounds_st σ cL cR aL aR aLn aRn).2.2
      = (add_compounds ⟨storeGet σ cL, storeGet σ cR⟩
          ⟨storeGet σ aL, storeGet σ aR,
            storeGet σ aLn, storeGet σ aRn⟩).right := by
  set rL := freshRef σ with hrLdef
  set σ1 := σ ++ [(rL, storeGet σ cL)] with hσ1def
  set rR := freshRef σ1 with hrRdef
  set σ2 := σ1 ++ [(rR, storeGet σ1 cR)] with hσ2def
  set σ3 := stIncrLoop σ2 rR (storeGet σ2 aR) with hσ3def
  set σ4 := stIncrLoop σ3 rR (storeGet σ3 aRn) with hσ4def
  set σ5 := stIncrLoop σ4 rL (storeGet σ4 aL) with hσ5def
  set σ6 := stIncrLoop σ5 rL (storeGet σ5 aLn) with hσ6def
  have hres : add_compounds_st σ cL cR aL aR aLn aRn = (σ6, rL, rR) := by
    rw [hσ6def, hσ5def, hσ4def, hσ3def, hσ2def, hrRdef, hσ1def, hrLdef]
    rfl
  -- basic facts about the fresh references
  have hneL : ∀ r ∈ storeDom σ, ¬rL = r := by
    intro r hr h
    have hlt := lt_freshRef σ r hr
    rw [← hrLdef] at hlt
    exact absurd (h ▸ hlt) (lt_irrefl r)
  have hdom1 : storeDom σ1 = storeDom σ ++ [rL] := by
    rw [hσ1def, storeDom_append]; rfl
  have hmem1 : ∀ r ∈ storeDom σ, r ∈ storeDom σ1 := by
    intro r hr; rw [hdom1]; exact List.mem_append_left _ hr
  have hrLmem1 : rL ∈ storeDom σ1 := by
    rw [hdom1]; exact List.mem_append_right _ (List.mem_singleton.mpr rfl)
  have hneR : ∀ r ∈ storeDom σ1, ¬rR = r := by
    intro r hr h
    have hlt := lt_freshRef σ1 r hr
    rw [← hrRdef] at hlt
    exact absurd (h ▸ hlt) (lt_irrefl r)
  have hrLrR : ¬rR = rL := hneR rL hrLmem1
  have hdom2 : storeDom σ2 = storeDom σ1 ++ [rR] := by
    rw [hσ2def, storeDom_append]; rfl
  have hmem2 : ∀ r ∈ storeDom σ1, r ∈ storeDom σ2 := by
    intro r hr; rw [hdom2]; exact List.mem_append_left _ hr
  have hrRmem2 : rR ∈ storeDom σ2 := by
    rw [hdom2]; exact List.mem_append_right _ (List.mem_singleton.mpr rfl)
  have hrLmem2 : rL ∈ storeDom σ2 := hmem2 rL hrLmem1
  -- reads of surviving references through the two allocations
  have hget1 : ∀ r ∈ storeDom σ, storeGet σ1 r = storeGet σ r := by
    intro r hr
    rw [hσ1def, storeGet_append, if_pos hr]
  have hget2 : ∀ r ∈ storeDom σ, storeGet σ2 r = storeGet σ r := by
    intro r hr
    rw [hσ2def, storeGet_append, if_pos (hmem1 r hr)]
    exact hget1 r hr
  have hgetrL2 : storeGet σ2 rL = storeGet σ cL := by
    rw [hσ2def, storeGet_append, if_pos hrLmem1, hσ1def, storeGet_append,
      if_neg (fun h => hneL rL h rfl), storeGet_cons, if_pos rfl]
  have hgetrR2 : storeGet σ2 rR = storeGet σ cR := by
    rw [hσ2def, storeGet_append, if_neg (fun h => hneR rR h rfl),
      storeGet_cons, if_pos rfl]
    exact hget1 cR hcR
  -- the four in-place loops
  have hne3 : ∀ r ∈ storeDom σ, ¬rR = r := fun r hr => hneR r (hmem1 r hr)
  have hget3 : ∀ r ∈ storeDom σ, storeGet σ3 r = storeGet σ r := by
    intro r hr
    rw [hσ3def, storeGet_stIncrLoop_ne _ _ _ _ (hne3 r hr)]
    exact hget2 r hr
  have hget4 : ∀ r ∈ storeDom σ, storeGet σ4 r = storeGet σ r := by
    intro r hr
    rw [hσ4def, storeGet_stIncrLoop_ne _ _ _ _ (hne3 r hr)]
    exact hget3 r hr
  have hne5 : ∀ r ∈ storeDom σ, ¬rL = r := hneL
  have hget5 : ∀ r ∈ storeDom σ, storeGet σ5 r = storeGet σ r := by
    intro r hr
    rw [hσ5def, storeGet_stIncrLoop_ne _ _ _ _ (hne5 r hr)]
    exact hget4 r hr
  have hget6 : ∀ r ∈ storeDom σ, storeGet σ6 r = storeGet σ r := by
    intro r hr
    rw [hσ6def, storeGet_stIncrLoop_ne _ _ _ _ (hne5 r hr)]
    exact hget5 r hr
  -- contents of the result's right side
  have hdom3 : storeDom σ3 = storeDom σ2 := by rw [hσ3def, storeDom_stIncrLoop]
  have hdom4 : storeDom σ4 = storeDom σ3 := by rw [hσ4def, storeDom_stIncrLoop]
  have hdom5 : storeDom σ5 = storeDom σ4 := by rw [hσ5def, storeDom_stIncrLoop]
  have hgetrR3 : storeGet σ3 rR
      = addSide (storeGet σ cR) (storeGet σ aR) := by
    rw [hσ3def, storeGet_stIncrLoop_self _ _ _ hrRmem2, hgetrR2, hget2 aR haR]
  have hgetrR4 : storeGet σ4 rR
      = addSide (addSide (storeGet σ cR) (storeGet σ aR)) (storeGet σ aRn) := by
    rw [hσ4def, storeGet_stIncrLoop_self _ _ _ (hdom3 ▸ hrRmem2), hgetrR3,
      hσ3def, storeGet_stIncrLoop_ne _ _ _ _ (hne3 aRn haRn), hget2 aRn haRn]
  have hgetrR6 : storeGet σ6 rR
      = addSide (addSide (storeGet σ cR) (storeGet σ aR)) (storeGet σ aRn) := by
    rw [hσ6def, storeGet_stIncrLoop_ne _ _ _ _ (fun h => hrLrR h.symm),
      hσ5def, storeGet_stIncrLoop_ne _ _ _ _ (fun h => hrLrR h.symm)]
    exact hgetrR4
  -- contents of the result's left side
  have hgetrL4 : storeGet σ4 rL = storeGet σ cL := by
    rw [hσ4def, storeGet_stIncrLoop_ne _ _ _ _ hrLrR,
      hσ3def, storeGet_stIncrLoop_ne _ _ _ _ hrLrR]
    exact hgetrL2
  have hrLmem4 : rL ∈ storeDom σ4 := by
    rw [hdom4, hdom3]; exact hrLmem2
  have hgetrL5 : storeGet σ5 rL
      = addSide (storeGet σ cL) (storeGet σ aL) := by
    rw [hσ5def, storeGet_stIncrLoop_self _ _ _ hrLmem4, hgetrL4, hget4 aL haL]
  have hgetrL6 : storeGet σ6 rL
      = addSide (addSide (storeGet σ cL) (storeGet σ aL)) (storeGet σ aLn) := by
    rw [hσ6def, storeGet_stIncrLoop_self _ _ _ (hdom5 ▸ hrLmem4), hgetrL5,
      hσ5def, storeGet_stIncrLoop_ne _ _ _ _ (hne5 aLn haLn), hget4 aLn haLn]
  rw [hres]
  exact ⟨hget6, hgetrL6, hgetrR6⟩

/-- Witness for `add_compounds_st_frame`: a six-dict heap merged through
the heap model leaves all six input dicts unchanged and produces the
pure merge at the two fresh references. -/
theorem add_compounds_st_frame_concrete :
    (0 : Ref) ∈ storeDom [(0, [("A", 1)]), (1, [("T", 2)]), (2, [("B", 3)]),
      (3, [("C", 1)]), (4, [("D", 5)]), (5, [("A", 2)])]
    ∧ (∀ r ∈ storeDom [(0, [("A", 1)]), (1, [("T", 2)]), (2, [("B", 3)]),
        (3, [("C", 1)]), (4, [("D", 5)]), (5, [("A", 2)])],
        storeGet (add_compounds_st [(0, [("A", 1)]), (1, [("T", 2)]),
          (2, [("B", 3)]), (3, [("C", 1)]), (4, [("D", 5)]), (5, [("A", 2)])]
          0 1 2 3 4 5).1 r
          = storeGet [(0, [("A", 1)]), (1, [("T", 2)]), (2, [("B", 3)]),
              (3, [("C", 1)]), (4, [("D", 5)]), (5, [("A", 2)])] r) := by
  have h := add_compounds_st_frame
    [(0, [("A", 1)]), (1, [("T", 2)]), (2, [("B", 3)]),
      (3, [("C", 1)]), (4, [("D", 5)]), (5, [("A", 2)])]
    0 1 2 3 4 5
    (by decide) (by decide) (by decide) (by decide) (by decide) (by decide)
  exact ⟨by decide, h.1⟩

/-- C6: a species id is in the pathway's sink list iff it is among the
pathway's species ids and in the external sink set; the sink list has no
duplicates, so each such id appears exactly once however many reactions
reference it. -/
theorem set_sink_species_spec (p : Pathway) (sink_molecules : List SpeciesId) :
    (∀ s, s ∈ (set_sink_species p sink_molecules).sink_species
      ↔ s ∈ p.species_ids ∧ s ∈ sink_molecules)
    ∧ (set_sink_species p sink_molecules).sink_species.Nodup
    ∧ (∀ s ∈ (set_sink_species p sink_molecules).sink_species,
        (set_sink_species p sink_molecules).sink_species.count s = 1) := by
  refine ⟨?_, ?_, ?_⟩
  · intro s
    simp [set_sink_species, List.mem_filter, List.mem_dedup]
  · exact (List.nodup_dedup _).filter _
  · intro s hs
    exact List.count_eq_one_of_mem ((List.nodup_dedup _).filter _) hs

theorem length_buildReactionsFrom (transfos : String → Transfo)
    (rr_score : String → String → ℚ) (lfb ufb : ℚ) (n : Nat)
    (j : Nat) (l : List Candidate) :
    (buildReactionsFrom transfos rr_score lfb ufb n j l).length = l.length := by
  induction l generalizing j with
  | nil => rfl
  | cons c rest ih => simp [buildReactionsFrom, ih]

theorem get_buildReactionsFrom (transfos : String → Transfo)
    (rr_score : String → String → ℚ) (lfb ufb : ℚ) (n : Nat)
    (l : List Candidate) (j i : Nat)
    (h1 : i < (buildReactionsFrom transfos rr_score lfb ufb n j l).length)
    (h2 : i < l.length) :
    (buildReactionsFrom transfos rr_score lfb ufb n j l).get ⟨i, h1⟩
      = buildReaction transfos rr_score lfb ufb n (j + i) (l.get ⟨i, h2⟩) := by
  induction l generalizing j i with
  | nil => exact absurd h2 (by simp)
  | cons c rest ih =>
    cases i with
    | zero => rfl
    | succ i' =>
      have h1' : i' < (buildReactionsFrom transfos rr_score lfb ufb n
          (j + 1) rest).length := by
        rw [length_buildReactionsFrom]
        exact Nat.lt_of_succ_lt_succ h2
      have h2' : i' < rest.length := Nat.lt_of_succ_lt_succ h2
      have hstep :
          (buildReactionsFrom transfos rr_score lfb ufb n j
            (c :: rest)).get ⟨i' + 1, h1⟩
          = (buildReactionsFrom transfos rr_score lfb ufb n (j + 1)
              rest).get ⟨i', h1'⟩ := rfl
      rw [hstep, ih (j + 1) i' h1' h2']
      have harith : j + 1 + i' = j + (i' + 1) := by omega
      rw [harith]
      rfl

/-- C7: in a sub-pathway with `n` reactions, the reaction built from the
transformation at zero-based retrosynthetic position `i` receives
forward index `n - i` — the first-discovered transformation gets the
highest index `n` and the last gets 1 — and that index is both the
reaction's id suffix and its `idx_in_path`. -/
theorem reaction_forward_index (transfos : String → Transfo)
    (rr_score : String → String → ℚ) (lfb ufb : ℚ) (sub : List Candidate)
    (i : Nat)
    (h1 : i < (build_sub_pathway_reactions transfos rr_score lfb ufb
        sub).length)
    (h2 : i < sub.length) :
    ((build_sub_pathway_reactions transfos rr_score lfb ufb sub).get
        ⟨i, h1⟩).idx_in_path = sub.length - i
    ∧ ((build_sub_pathway_reactions transfos rr_score lfb ufb sub).get
        ⟨i, h1⟩).id = "rxn_" ++ toString (sub.length - i) := by
  unfold build_sub_pathway_reactions at h1 ⊢
  rw [get_buildReactionsFrom transfos rr_score lfb ufb sub.length sub 0 i
    h1 h2]
  constructor
  · simp [buildReaction]
  · simp [buildReaction]

/-- Witness for `reaction_forward_index`: a two-reaction sub-pathway; the
reaction at retrosynthetic position 0 gets forward index 2, id `rxn_2`. -/
theorem reaction_forward_index_concrete :
    0 < (build_sub_pathway_reactions (fun _ => ⟨[], [], [], []⟩)
        (fun _ _ => 0) 0 0
        [⟨"TRS_0", "RR-a", "MNXR1"⟩, ⟨"TRS_1", "RR-b", "MNXR2"⟩]).length
    ∧ 0 < ([⟨"TRS_0", "RR-a", "MNXR1"⟩,
        (⟨"TRS_1", "RR-b", "MNXR2"⟩ : Candidate)] : List Candidate).length
    ∧ ((build_sub_pathway_reactions (fun _ => ⟨[], [], [], []⟩)
        (fun _ _ => 0) 0 0
        [⟨"TRS_0", "RR-a", "MNXR1"⟩, ⟨"TRS_1", "RR-b", "MNXR2"⟩]).get
        ⟨0, by decide⟩).idx_in_path
        = ([⟨"TRS_0", "RR-a", "MNXR1"⟩,
            (⟨"TRS_1", "RR-b", "MNXR2"⟩ : Candidate)] : List Candidate).length
          - 0
    ∧ ((build_sub_pathway_reactions (fun _ => ⟨[], [], [], []⟩)
        (fun _ _ => 0) 0 0
        [⟨"TRS_0", "RR-a", "MNXR1"⟩, ⟨"TRS_1", "RR-b", "MNXR2"⟩]).get
        ⟨0, by decide⟩).id
        = "rxn_" ++ toString
            (([⟨"TRS_0", "RR-a", "MNXR1"⟩,
              (⟨"TRS_1", "RR-b", "MNXR2"⟩ : Candidate)] : List Candidate).length
            - 0) := by
  have h := reaction_forward_index (fun _ => ⟨[], [], [], []⟩)
    (fun _ _ => 0) 0 0
    [⟨"TRS_0", "RR-a", "MNXR1"⟩, ⟨"TRS_1", "RR-b", "MNXR2"⟩]
    0 (by decide) (by decide)
  exact ⟨by decide, by decide, h.1, h.2⟩

theorem alookup_append_single {β : Type} (l : List (String × β))
    (k' : String) (v : β) (k : String) :
    alookup (l ++ [(k', v)]) k
      = match alookup l k with
        | some x => some x
        | none => if k' = k then some v else none := by
  induction l with
  | nil => simp [alookup]
  | cons e t ih =>
    obtain ⟨a, b⟩ := e
    by_cases h : a = k
    · simp [alookup, h]
    · simp [alookup, h, ih]

/-- C8: registering an unknown added species succeeds without failure:
when the compounds cache has no entry for the id a bare placeholder
keyed by id only is registered, when it has one a fully-described
compound is registered; either way the id ends up registered. -/
theorem register_compound_spec (registry : Registry)
    (compounds_cache : SpeciesId → Option CompoundData) (spe_id : SpeciesId)
    (h : alookup registry spe_id = none) :
    (compounds_cache spe_id = none →
      alookup (register_compound registry compounds_cache spe_id) spe_id
        = some CompoundRec.placeholder)
    ∧ (∀ d, compounds_cache spe_id = some d →
      alookup (register_compound registry compounds_cache spe_id) spe_id
        = some (CompoundRec.full d.smiles d.inchi d.inchikey d.formula
            d.name))
    ∧ (alookup (register_compound registry compounds_cache spe_id)
        spe_id).isSome = true := by
  have hnot : ¬(alookup registry spe_id).isSome = true := by
    rw [h]; simp
  refine ⟨?_, ?_, ?_⟩
  · intro hc
    unfold register_compound
    rw [if_neg hnot, hc, alookup_append_single, h]
    simp
  · intro d hc
    unfold register_compound
    rw [if_neg hnot, hc, alookup_append_single, h]
    simp
  · unfold register_compound
    rw [if_neg hnot]
    cases hc : compounds_cache spe_id with
    | none => rw [alookup_append_single, h]; simp
    | some d => rw [alookup_append_single, h]; simp

/-- Witness for `register_compound_spec`: registering the unknown id `B`
against an empty cache yields a placeholder; against a cache holding full
data for `B` it yields the fully-described compound. -/
theorem register_compound_spec_concrete :
    alookup ([("A", CompoundRec.placeholder)] : Registry) "B" = none
    ∧ alookup (register_compound [("A", CompoundRec.placeholder)]
        (fun _ => none) "B") "B" = some CompoundRec.placeholder
    ∧ alookup (register_compound [("A", CompoundRec.placeholder)]
        (fun i => if i = "B" then
          some ⟨"smi", "inchi", "ikey", "CH4", "methane"⟩ else none) "B") "B"
      = some (CompoundRec.full "smi" "inchi" "ikey" "CH4" "methane") := by
  have h1 := register_compound_spec [("A", CompoundRec.placeholder)]
    (fun _ => none) "B" (by decide)
  have h2 := register_compound_spec [("A", CompoundRec.placeholder)]
    (fun i => if i = "B" then
      some ⟨"smi", "inchi", "ikey", "CH4", "methane"⟩ else none) "B"
    (by decide)
  exact ⟨by decide, h1.1 rfl,
    h2.2.1 ⟨"smi", "inchi", "ikey", "CH4", "methane"⟩ (by decide)⟩

theorem length_flatten_pathways (res : List (List Item)) :
    (flatten_pathways res).length = (res.map List.length).sum := by
  suffices h : ∀ acc : List Item,
      (res.foldl (fun acc l => acc ++ l) acc).length
        = acc.length + (res.map List.length).sum by
    simpa using h []
  induction res with
  | nil => intro acc; simp
  | cons l t ih =>
    intro acc
    rw [List.foldl_cons, ih]
    simp [List.length_append]
    omega

/-- C4: for a positive cap, the globally returned pathway list has
length `min(max_subpaths_filter, total unique pathways)` and is sorted
ascending by score. -/
theorem global_topk_spec (res : List (List Item)) (max_subpaths_filter : Nat)
    (hk : 0 < max_subpaths_filter) :
    (global_topk res max_subpaths_filter).length
      = min max_subpaths_filter ((res.map List.length).sum)
    ∧ SortedByScore (global_topk res max_subpaths_filter) := by
  constructor
  · unfold global_topk global_sorted
    rw [List.length_drop, List.length_mergeSort, length_flatten_pathways]
    omega
  · have htrans : ∀ a b c : Item, decide (a.score ≤ b.score) = true →
        decide (b.score ≤ c.score) = true →
        decide (a.score ≤ c.score) = true := by
      intro a b c hab hbc
      simp only [decide_eq_true_iff] at hab hbc ⊢
      exact le_trans hab hbc
    have htotal : ∀ a b : Item,
        (decide (a.score ≤ b.score) || decide (b.score ≤ a.score)) = true := by
      intro a b
      simp [le_total]
    have hsorted := List.sorted_mergeSort htrans htotal (flatten_pathways res)
    have hs2 : SortedByScore (global_sorted res) := by
      unfold global_sorted
      exact hsorted.imp (fun hab => decide_eq_true_iff.mp hab)
    exact List.Pairwise.sublist (List.drop_sublist _ _) hs2

/-- Witness for `global_topk_spec`: three unique entries across two
master pathways, cap 2: the result keeps the two best, ascending. -/
theorem global_topk_spec_concrete :
    0 < 2
    ∧ ((global_topk
        [[⟨⟨"p1", [], [], [], []⟩, 3⟩, ⟨⟨"p2", [], [], [], []⟩, 5⟩],
         [⟨⟨"p3", [], [], [], []⟩, 1⟩]] 2).length
      = min 2 ((([[⟨⟨"p1", [], [], [], []⟩, (3 : ℚ)⟩,
          ⟨⟨"p2", [], [], [], []⟩, 5⟩],
         [⟨⟨"p3", [], [], [], []⟩, 1⟩]] : List (List Item)).map
           List.length).sum)
    ∧ SortedByScore (global_topk
        [[⟨⟨"p1", [], [], [], []⟩, 3⟩, ⟨⟨"p2", [], [], [], []⟩, 5⟩],
         [⟨⟨"p3", [], [], [], []⟩, 1⟩]] 2)) := by
  exact ⟨Nat.zero_lt_succ 1, global_topk_spec
    [[⟨⟨"p1", [], [], [], []⟩, 3⟩, ⟨⟨"p2", [], [], [], []⟩, 5⟩],
     [⟨⟨"p3", [], [], [], []⟩, 1⟩]] 2 (Nat.zero_lt_succ 1)⟩

theorem mem_insert_in_sorted_list (it : Item) (l : List Item) (b : Item) :
    b ∈ insert_in_sorted_list it l ↔ b = it ∨ b ∈ l := by
  induction l with
  | nil => simp [insert_in_sorted_list]
  | cons x xs ih =>
    unfold insert_in_sorted_list
    by_cases h : it.score < x.score
    · rw [if_pos h]
      simp [List.mem_cons]
    · rw [if_neg h]
      simp [List.mem_cons, ih]
      tauto

theorem length_insert_in_sorted_list (it : Item) (l : List Item) :
    (insert_in_sorted_list it l).length = l.length + 1 := by
  induction l with
  | nil => rfl
  | cons x xs ih =>
    unfold insert_in_sorted_list
    by_cases h : it.score < x.score
    · rw [if_pos h]; rfl
    · rw [if_neg h]
      simp [ih]

theorem sorted_insert_in_sorted_list (it : Item) (l : List Item)
    (h : SortedByScore l) : SortedByScore (insert_in_sorted_list it l) := by
  induction l with
  | nil => exact List.pairwise_singleton _ _
  | cons x xs ih =>
    have hx : ∀ b ∈ xs, x.score ≤ b.score :=
      fun b hb => List.rel_of_pairwise_cons h hb
    have hxs : SortedByScore xs := h.tail
    unfold insert_in_sorted_list
    by_cases hlt : it.score < x.score
    · rw [if_pos hlt]
      refine List.Pairwise.cons ?_ h
      intro b hb
      rcases List.mem_cons.mp hb with rfl | hb
      · exact le_of_lt hlt
      · exact le_trans (le_of_lt hlt) (hx b hb)
    · rw [if_neg hlt]
      refine List.Pairwise.cons ?_ (ih hxs)
      intro b hb
      rcases (mem_insert_in_sorted_list it xs b).mp hb with rfl | hb
      · exact le_of_not_lt hlt
      · exact hx b hb

/-- C9: when no structurally equal entry exists in the (sorted) ranked
list, `__keep_unique_pathways` scores the new pathway with the
arithmetic mean of its reactions' rule scores, inserts exactly that
scored entry, and the list stays sorted ascending by score. -/
theorem keep_unique_insert_spec (l : List Item) (p : Pathway)
    (hnone : ∀ it ∈ l, pathwayEq p it.object = false)
    (hsort : SortedByScore l) :
    SortedByScore (keep_unique_pathways l p)
    ∧ (⟨p, get_mean_rule_score p⟩ : Item) ∈ keep_unique_pathways l p
    ∧ (keep_unique_pathways l p).length = l.length + 1 := by
  have hany : ¬l.any (fun it => pathwayEq p it.object) = true := by
    rw [List.any_eq_true]
    rintro ⟨it, hit, hpe⟩
    rw [hnone it hit] at hpe
    exact Bool.false_ne_true hpe
  unfold keep_unique_pathways
  rw [if_neg hany]
  exact ⟨sorted_insert_in_sorted_list _ _ hsort,
    (mem_insert_in_sorted_list _ _ _).mpr (Or.inl rfl),
    length_insert_in_sorted_list _ _⟩

/-- Witness for `keep_unique_insert_spec`: inserting a one-reaction
pathway (rule score 4) into a sorted singleton list with no structurally
equal entry: the new entry carries score 4 (the mean) and the list stays
sorted. -/
theorem keep_unique_insert_spec_concrete :
    (∀ it ∈ [(⟨⟨"q", [], [], [], []⟩, (0 : ℚ)⟩ : Item)],
      pathwayEq ⟨"p", [⟨"rxn_1", [], [("A", 1)], [("B", 1)], 0, 0,
        ["RR-a"], ["MNXR1"], 4, 1⟩], [], [], []⟩ it.object = false)
    ∧ SortedByScore [(⟨⟨"q", [], [], [], []⟩, (0 : ℚ)⟩ : Item)]
    ∧ (SortedByScore (keep_unique_pathways
        [(⟨⟨"q", [], [], [], []⟩, (0 : ℚ)⟩ : Item)]
        ⟨"p", [⟨"rxn_1", [], [("A", 1)], [("B", 1)], 0, 0,
          ["RR-a"], ["MNXR1"], 4, 1⟩], [], [], []⟩)
    ∧ (⟨⟨"p", [⟨"rxn_1", [], [("A", 1)], [("B", 1)], 0, 0,
          ["RR-a"], ["MNXR1"], 4, 1⟩], [], [], []⟩,
        get_mean_rule_score ⟨"p", [⟨"rxn_1", [], [("A", 1)], [("B", 1)],
          0, 0, ["RR-a"], ["MNXR1"], 4, 1⟩], [], [], []⟩⟩ : Item)
        ∈ keep_unique_pathways
          [(⟨⟨"q", [], [], [], []⟩, (0 : ℚ)⟩ : Item)]
          ⟨"p", [⟨"rxn_1", [], [("A", 1)], [("B", 1)], 0, 0,
            ["RR-a"], ["MNXR1"], 4, 1⟩], [], [], []⟩
    ∧ (keep_unique_pathways [(⟨⟨"q", [], [], [], []⟩, (0 : ℚ)⟩ : Item)]
        ⟨"p", [⟨"rxn_1", [], [("A", 1)], [("B", 1)], 0, 0,
          ["RR-a"], ["MNXR1"], 4, 1⟩], [], [], []⟩).length
      = [(⟨⟨"q", [], [], [], []⟩, (0 : ℚ)⟩ : Item)].length + 1) := by
  have hnone : ∀ it ∈ [(⟨⟨"q", [], [], [], []⟩, (0 : ℚ)⟩ : Item)],
      pathwayEq ⟨"p", [⟨"rxn_1", [], [("A", 1)], [("B", 1)], 0, 0,
        ["RR-a"], ["MNXR1"], 4, 1⟩], [], [], []⟩ it.object = false := by
    intro it hit
    rw [List.mem_singleton.mp hit]
    rfl
  have hsort : SortedByScore [(⟨⟨"q", [], [], [], []⟩, (0 : ℚ)⟩ : Item)] :=
    List.pairwise_singleton _ _
  exact ⟨hnone, hsort, keep_unique_insert_spec _ _ hnone hsort⟩

theorem structEq_iff_key (r s : Reaction) :
    Reaction.structEq r s = true ↔ r.structKey = s.structKey := by
  unfold Reaction.structEq Reaction.structKey
  simp [Bool.and_eq_true, decide_eq_true_iff, Prod.ext_iff]
  tauto

theorem structEq_eq_key (r s : Reaction) :
    Reaction.structEq r s = decide (r.structKey = s.structKey) := by
  by_cases h : r.structKey = s.structKey
  · rw [decide_eq_true_iff.mpr h]
    exact (structEq_iff_key r s).mpr h
  · rw [decide_eq_false h]
    exact Bool.eq_false_iff.mpr (fun hc => h ((structEq_iff_key r s).mp hc))

theorem structKey_absorb (tgt src : Reaction) :
    (Reaction.absorb tgt src).structKey = tgt.structKey := by
  unfold Reaction.absorb
  split
  · rfl
  · rfl

theorem structEq_absorb_right (r tgt src : Reaction) :
    Reaction.structEq r (Reaction.absorb tgt src)
      = Reaction.structEq r tgt := by
  rw [structEq_eq_key, structEq_eq_key, structKey_absorb]

theorem rxnChainEq_iff_keys : ∀ (l m : List Reaction),
    rxnChainEq l m = true
      ↔ l.map Reaction.structKey = m.map Reaction.structKey
  | [], [] => by simp [rxnChainEq]
  | [], s :: ss => by simp [rxnChainEq]
  | r :: rs, [] => by simp [rxnChainEq]
  | r :: rs, s :: ss => by
    simp [rxnChainEq, Bool.and_eq_true, structEq_iff_key,
      rxnChainEq_iff_keys rs ss]

theorem pathwayEq_eq_keys (p q : Pathway) :
    pathwayEq p q
      = decide (p.reactions.map Reaction.structKey
          = q.reactions.map Reaction.structKey) := by
  by_cases h : p.reactions.map Reaction.structKey
      = q.reactions.map Reaction.structKey
  · rw [decide_eq_true_iff.mpr h]
    exact (rxnChainEq_iff_keys _ _).mpr h
  · rw [decide_eq_false h]
    exact Bool.eq_false_iff.mpr
      (fun hc => h ((rxnChainEq_iff_keys _ _).mp hc))

theorem absorbAll_cons (tgt s : Reaction) (t : List Reaction) :
    absorbAll tgt (s :: t) = absorbAll (Reaction.absorb tgt s) t := rfl

theorem structKey_absorbAll (tgt : Reaction) (srcs : List Reaction) :
    (absorbAll tgt srcs).structKey = tgt.structKey := by
  induction srcs generalizing tgt with
  | nil => rfl
  | cons s t ih => rw [absorbAll_cons, ih, structKey_absorb]

theorem mergeProvenance_eq_map (existing incoming : List Reaction) :
    mergeProvenance existing incoming
      = existing.map (fun tgt => absorbAll tgt incoming) := by
  unfold mergeProvenance absorbAll
  induction incoming generalizing existing with
  | nil => simp
  | cons s t ih =>
    rw [List.foldl_cons, ih, List.map_map]
    rfl

theorem mem_unionIds (base add : List String) (x : String) :
    x ∈ unionIds base add ↔ x ∈ base ∨ x ∈ add := by
  induction add generalizing base with
  | nil => simp [unionIds]
  | cons a t ih =>
    have hstep : unionIds base (a :: t)
        = unionIds (if a ∈ base then base else base ++ [a]) t := rfl
    rw [hstep, ih]
    by_cases h : a ∈ base
    · rw [if_pos h]
      constructor
      · rintro (hx | hx)
        · exact Or.inl hx
        · exact Or.inr (List.mem_cons_of_mem a hx)
      · rintro (hx | hx)
        · exact Or.inl hx
        · rcases List.mem_cons.mp hx with rfl | hx'
          · exact Or.inl h
          · exact Or.inr hx'
    · rw [if_neg h]
      constructor
      · rintro (hx | hx)
        · rcases List.mem_append.mp hx with hx' | hx'
          · exact Or.inl hx'
          · exact Or.inr
              (List.mem_cons.mpr (Or.inl (List.mem_singleton.mp hx')))
        · exact Or.inr (List.mem_cons_of_mem a hx)
      · rintro (hx | hx)
        · exact Or.inl (List.mem_append.mpr (Or.inl hx))
        · rcases List.mem_cons.mp hx with rfl | hx'
          · exact Or.inl
              (List.mem_append.mpr (Or.inr (List.mem_singleton.mpr rfl)))
          · exact Or.inr hx'

theorem mem_rule_ids_absorbAll (tgt : Reaction) (srcs : List Reaction)
    (x : String) :
    x ∈ (absorbAll tgt srcs).rule_ids
      ↔ x ∈ tgt.rule_ids
        ∨ ∃ s ∈ srcs, Reaction.structEq s tgt = true ∧ x ∈ s.rule_ids := by
  induction srcs generalizing tgt with
  | nil => simp [absorbAll]
  | cons s t ih =>
    rw [absorbAll_cons, ih]
    simp only [structEq_absorb_right]
    cases hse : Reaction.structEq s tgt with
    | true =>
      have habs : Reaction.absorb tgt s
          = { tgt with
              tmpl_rxn_ids := unionIds tgt.tmpl_rxn_ids s.tmpl_rxn_ids
              rule_ids := unionIds tgt.rule_ids s.rule_ids } := by
        unfold Reaction.absorb
        rw [if_pos hse]
      rw [habs]
      simp only [List.exists_mem_cons_iff, hse, mem_unionIds, true_and]
      tauto
    | false =>
      have habs : Reaction.absorb tgt s = tgt := by
        unfold Reaction.absorb
        rw [if_neg (by simp [hse])]
      rw [habs]
      simp only [List.exists_mem_cons_iff, hse]
      constructor
      · rintro (hx | hx)
        · exact Or.inl hx
        · exact Or.inr (Or.inr hx)
      · rintro (hx | ⟨hfalse, _⟩ | hx)
        · exact Or.inl hx
        · exact absurd hfalse Bool.false_ne_true
        · exact Or.inr hx

theorem mem_tmpl_ids_absorbAll (tgt : Reaction) (srcs : List Reaction)
    (x : String) :
    x ∈ (absorbAll tgt srcs).tmpl_rxn_ids
      ↔ x ∈ tgt.tmpl_rxn_ids
        ∨ ∃ s ∈ srcs, Reaction.structEq s tgt = true
            ∧ x ∈ s.tmpl_rxn_ids := by
  induction srcs generalizing tgt with
  | nil => simp [absorbAll]
  | cons s t ih =>
    rw [absorbAll_cons, ih]
    simp only [structEq_absorb_right]
    cases hse : Reaction.structEq s tgt with
    | true =>
      have habs : Reaction.absorb tgt s
          = { tgt with
              tmpl_rxn_ids := unionIds tgt.tmpl_rxn_ids s.tmpl_rxn_ids
              rule_ids := unionIds tgt.rule_ids s.rule_ids } := by
        unfold Reaction.absorb
        rw [if_pos hse]
      rw [habs]
      simp only [List.exists_mem_cons_iff, hse, mem_unionIds, true_and]
      tauto
    | false =>
      have habs : Reaction.absorb tgt s = tgt := by
        unfold Reaction.absorb
        rw [if_neg (by simp [hse])]
      rw [habs]
      simp only [List.exists_mem_cons_iff, hse]
      constructor
      · rintro (hx | hx)
        · exact Or.inl hx
        · exact Or.inr (Or.inr hx)
      · rintro (hx | ⟨hfalse, _⟩ | hx)
        · exact Or.inl hx
        · exact absurd hfalse Bool.false_ne_true
        · exact Or.inr hx

theorem length_eq_of_chain (l m : List Reaction)
    (h : rxnChainEq l m = true) : l.length = m.length := by
  have hk := (rxnChainEq_iff_keys l m).mp h
  have h2 := congrArg List.length hk
  simpa using h2

theorem key_eq_of_chain (l m : List Reaction) (h : rxnChainEq l m = true)
    (i : Nat) (hi : i < l.length) (hi' : i < m.length) :
    (l.get ⟨i, hi⟩).structKey = (m.get ⟨i, hi'⟩).structKey := by
  have hk := (rxnChainEq_iff_keys l m).mp h
  have h1 := List.get_of_eq hk ⟨i, by simpa using hi⟩
  rw [List.get_map, List.get_map] at h1
  exact h1

theorem key_ne_of_pairwise (rs : List Reaction)
    (hd : List.Pairwise (fun r s => Reaction.structEq r s = false) rs)
    (i j : Nat) (hi : i < rs.length) (hj : j < rs.length) (hne : i ≠ j) :
    (rs.get ⟨i, hi⟩).structKey ≠ (rs.get ⟨j, hj⟩).structKey := by
  have hpg := List.pairwise_iff_get.mp hd
  rcases Nat.lt_or_ge i j with hij | hij
  · have hf := hpg ⟨i, hi⟩ ⟨j, hj⟩ hij
    intro hk
    rw [structEq_eq_key, decide_eq_true_iff.mpr hk] at hf
    simp at hf
  · have hji : j < i := Nat.lt_of_le_of_ne hij (fun hh => hne hh.symm)
    have hf := hpg ⟨j, hj⟩ ⟨i, hi⟩ hji
    intro hk
    rw [structEq_eq_key, decide_eq_true_iff.mpr hk.symm] at hf
    simp at hf

theorem updateItem_keys (p : Pathway) (it : Item) :
    (updateItem p it).object.reactions.map Reaction.structKey
      = it.object.reactions.map Reaction.structKey := by
  unfold updateItem
  split
  · show (mergeProvenance it.object.reactions p.reactions).map
        Reaction.structKey = _
    rw [mergeProvenance_eq_map, List.map_map]
    congr 1
    funext tgt
    exact structKey_absorbAll tgt _
  · rfl

theorem pathwayEq_updateItem (p : Pathway) (a b : Item) :
    pathwayEq (updateItem p a).object (updateItem p b).object
      = pathwayEq a.object b.object := by
  rw [pathwayEq_eq_keys, pathwayEq_eq_keys, updateItem_keys, updateItem_keys]

/-- C3: when the new sub-pathway `p` is structurally equal (ignoring
rule-id and template-id sets) to an entry `e` of the deduplicated list,
`__keep_unique_pathways` keeps the list free of structurally equal
duplicates, adds no new entry, keeps `e`'s updated form in the list with
its reaction count unchanged, and each reaction of the surviving entry
carries exactly the union of both entries' rule-id sets and template-id
sets for the corresponding (structurally equal) reactions — provided
the entry's reactions are pairwise structurally distinct, which pins
down the correspondence. -/
theorem keep_unique_dedup_union (l : List Item) (p : Pathway)
    (hinv : PairwiseDistinct l) (e : Item) (he : e ∈ l)
    (heq : pathwayEq p e.object = true)
    (hdist : List.Pairwise
      (fun r s => Reaction.structEq r s = false) e.object.reactions) :
    PairwiseDistinct (keep_unique_pathways l p)
    ∧ (keep_unique_pathways l p).length = l.length
    ∧ updateItem p e ∈ keep_unique_pathways l p
    ∧ (updateItem p e).object.reactions.length = e.object.reactions.length
    ∧ ∀ i (hie : i < e.object.reactions.length)
        (hiu : i < (updateItem p e).object.reactions.length)
        (hip : i < p.reactions.length),
        (∀ x, x ∈ ((updateItem p e).object.reactions.get ⟨i, hiu⟩).rule_ids
          ↔ x ∈ (e.object.reactions.get ⟨i, hie⟩).rule_ids
            ∨ x ∈ (p.reactions.get ⟨i, hip⟩).rule_ids)
        ∧ (∀ x,
            x ∈ ((updateItem p e).object.reactions.get ⟨i, hiu⟩).tmpl_rxn_ids
          ↔ x ∈ (e.object.reactions.get ⟨i, hie⟩).tmpl_rxn_ids
            ∨ x ∈ (p.reactions.get ⟨i, hip⟩).tmpl_rxn_ids) := by
  have hany : l.any (fun it => pathwayEq p it.object) = true :=
    List.any_eq_true.mpr ⟨e, he, heq⟩
  have hbranch : keep_unique_pathways l p = l.map (updateItem p) := by
    unfold keep_unique_pathways
    rw [if_pos hany]
  have hchain : rxnChainEq p.reactions e.object.reactions = true := heq
  have hupd : (updateItem p e).object.reactions
      = e.object.reactions.map (fun tgt => absorbAll tgt p.reactions) := by
    unfold updateItem
    rw [if_pos heq]
    show mergeProvenance e.object.reactions p.reactions = _
    exact mergeProvenance_eq_map _ _
  refine ⟨?_, ?_, ?_, ?_, ?_⟩
  · rw [hbranch]
    refine List.pairwise_map.mpr (hinv.imp ?_)
    intro a b hab
    rw [pathwayEq_updateItem]
    exact hab
  · rw [hbranch, List.length_map]
  · rw [hbranch]
    exact List.mem_map_of_mem _ he
  · rw [hupd, List.length_map]
  · intro i hie hiu hip
    have hget : (updateItem p e).object.reactions.get ⟨i, hiu⟩
        = absorbAll (e.object.reactions.get ⟨i, hie⟩) p.reactions := by
      have h1 := List.get_of_eq hupd ⟨i, hiu⟩
      rw [List.get_map] at h1
      exact h1
    have huniq : ∀ s, s ∈ p.reactions →
        Reaction.structEq s (e.object.reactions.get ⟨i, hie⟩) = true →
        s = p.reactions.get ⟨i, hip⟩ := by
      intro s hs hseq
      rcases List.mem_iff_get.mp hs with ⟨⟨j, hj⟩, rfl⟩
      by_cases hji : j = i
      · subst hji; rfl
      · exfalso
        have hj' : j < e.object.reactions.length :=
          length_eq_of_chain _ _ hchain ▸ hj
        have hkj := key_eq_of_chain _ _ hchain j hj hj'
        have hki : (p.reactions.get ⟨j, hj⟩).structKey
            = (e.object.reactions.get ⟨i, hie⟩).structKey := by
          rw [structEq_eq_key] at hseq
          exact decide_eq_true_iff.mp hseq
        exact key_ne_of_pairwise _ hdist j i hj' hie hji
          (by rw [← hkj, hki])
    have hcorr : Reaction.structEq (p.reactions.get ⟨i, hip⟩)
        (e.object.reactions.get ⟨i, hie⟩) = true := by
      rw [structEq_eq_key]
      exact decide_eq_true_iff.mpr (key_eq_of_chain _ _ hchain i hip hie)
    constructor
    · intro x
      rw [hget, mem_rule_ids_absorbAll]
      constructor
      · rintro (hx | ⟨s, hs, hseq, hx⟩)
        · exact Or.inl hx
        · exact Or.inr (huniq s hs hseq ▸ hx)
      · rintro (hx | hx)
        · exact Or.inl hx
        · exact Or.inr ⟨p.reactions.get ⟨i, hip⟩,
            List.get_mem _ _ _, hcorr, hx⟩
    · intro x
      rw [hget, mem_tmpl_ids_absorbAll]
      constructor
      · rintro (hx | ⟨s, hs, hseq, hx⟩)
        · exact Or.inl hx
        · exact Or.inr (huniq s hs hseq ▸ hx)
      · rintro (hx | hx)
        · exact Or.inl hx
        · exact Or.inr ⟨p.reactions.get ⟨i, hip⟩,
            List.get_mem _ _ _, hcorr, hx⟩

/-- Witness for `keep_unique_dedup_union`: a singleton list holding a
one-reaction pathway (rule `RR-a`, template `MNXR1`) merged with the
structurally equal pathway built from rule `RR-b` / template `MNXR2`:
no entry is added and the survivor's reaction carries both rule ids. -/
theorem keep_unique_dedup_union_concrete :
    PairwiseDistinct [exItem]
    ∧ exItem ∈ [exItem]
    ∧ pathwayEq exPathway exItem.object = true
    ∧ List.Pairwise (fun r s => Reaction.structEq r s = false)
        exItem.object.reactions
    ∧ (keep_unique_pathways [exItem] exPathway).length = 1
    ∧ (∀ x, x ∈ ((updateItem exPathway exItem).object.reactions.get
          ⟨0, by decide⟩).rule_ids
        ↔ x ∈ (exItem.object.reactions.get ⟨0, by decide⟩).rule_ids
          ∨ x ∈ (exPathway.reactions.get ⟨0, by decide⟩).rule_ids) := by
  have h := keep_unique_dedup_union [exItem] exPathway
    (List.pairwise_singleton _ _) exItem (List.mem_singleton.mpr rfl)
    (by decide) (List.pairwise_singleton _ _)
  exact ⟨List.pairwise_singleton _ _, List.mem_singleton.mpr rfl, by decide,
    List.pairwise_singleton _ _, h.2.1,
    (h.2.2.2.2 0 (by decide) (by decide) (by decide)).1⟩

end RpCompletion
